import Mathlib

/-!
# The diagnostics calling-convention adapter (`src/bindings/c/diagnostics.c`)

The C file holds two functions.  `enter_exit` measures a null-terminated
identifier with `strlen`, stores the result in an `int`, and calls the external
routine `enter_exit_c` with the identifier pointer and the addresses of two of
its own automatic objects (`sub_name_len`, `place`).  `set_diagnostics_level`
calls the external routine `set_diagnostics_level_c` with the address of its
parameter `level`.

Embedding.

* `char` storage is a list of bytes; a `const char *` is an offset into it.
* `int` is the 32-bit two's-complement type; `size_t` to `int` conversion
  reduces modulo `2 ^ 32` (`int_of_size_t`).
* Automatic `int` objects live in a stack of cells; entering a function
  appends its cells, leaving it removes them.  An `int *` is a cell index.
* The two external routines are parameters (`Extern`).  A routine that
  receives an `int *` may read and write the cell: it is a function of the
  value found there which also returns the value it leaves there.
* Every call of an external routine is appended to a trace (`State.calls`).
* Undefined behaviour (`strlen` running off the storage) is `none`.
-/

namespace Diagnostics

/-- One `char` object. -/
abbrev Byte := Fin 256

/-- What the external routines can see and change besides the objects they are
handed by reference: the `char` storage and a state of their own. -/
structure World (σ : Type) where
  mem : List Byte
  ext : σ

/-- One invocation of an external routine, with the pointer it was handed and
the values found behind its `int *` arguments at the moment of the call. -/
inductive Call where
  | enter_exit_c (sub_name : Nat) (sub_name_len : Int) (place : Int)
  | set_diagnostics_level_c (level : Int)
  deriving DecidableEq

/-- What `enter_exit_c(sub_name, &sub_name_len, &place)` leaves behind. -/
structure EnterExitResult (σ : Type) where
  world : World σ
  sub_name_len : Int
  place : Int

/-- What `set_diagnostics_level_c(&level)` leaves behind. -/
structure SetLevelResult (σ : Type) where
  world : World σ
  level : Int

/-- The externally owned routines declared at lines 6-7 of the C file. -/
structure Extern (σ : Type) where
  enter_exit_c : World σ → Nat → Int → Int → EnterExitResult σ
  set_diagnostics_level_c : World σ → Int → SetLevelResult σ

/-- Program state around a call of the adapter. -/
structure State (σ : Type) where
  world : World σ
  stack : List Int
  calls : List Call

/-- The scanning loop of `strlen`: count bytes until the first zero byte;
`none` when the storage ends first. -/
def strlenAux : List Byte → Nat → Option Nat
  | [], _ => none
  | b :: bs, n => if b = 0 then some n else strlenAux bs (n + 1)

/-- The library call `strlen(s)` for the pointer `s` into `mem`. -/
def strlen (mem : List Byte) (s : Nat) : Option Nat :=
  strlenAux (mem.drop s) 0

/-- Conversion of a `size_t` value to `int` in the initialiser
`int sub_name_len = strlen(sub_name);`: the value is reduced modulo `2 ^ 32`
and read as two's complement.  A wider `size_t` changes nothing, since
`2 ^ 32` divides its modulus. -/
def int_of_size_t (n : Nat) : Int :=
  if n % 2 ^ 32 < 2 ^ 31 then ((n % 2 ^ 32 : Nat) : Int)
  else ((n % 2 ^ 32 : Nat) : Int) - 2 ^ 32

/-- The call statement `enter_exit_c(sub_name, &sub_name_len, &place);` where
`lenRef` and `placeRef` are the cells the two references point at. -/
def call_enter_exit_c {σ : Type} (E : Extern σ) (sub_name lenRef placeRef : Nat)
    (st : State σ) : State σ :=
  let len := st.stack.getD lenRef 0
  let place := st.stack.getD placeRef 0
  let r := E.enter_exit_c st.world sub_name len place
  { world := r.world
    stack := (st.stack.set lenRef r.sub_name_len).set placeRef r.place
    calls := st.calls ++ [Call.enter_exit_c sub_name len place] }

/-- The call statement `set_diagnostics_level_c(&level);` where `levelRef` is
the cell the reference points at. -/
def call_set_diagnostics_level_c {σ : Type} (E : Extern σ) (levelRef : Nat)
    (st : State σ) : State σ :=
  let level := st.stack.getD levelRef 0
  let r := E.set_diagnostics_level_c st.world level
  { world := r.world
    stack := st.stack.set levelRef r.level
    calls := st.calls ++ [Call.set_diagnostics_level_c level] }

/-- The body of `enter_exit` up to its closing brace: the parameter `place` and
the local `sub_name_len` are the two cells appended to the stack. -/
def enter_exit_body {σ : Type} (E : Extern σ) (sub_name : Nat) (place : Int)
    (st : State σ) : Option (State σ) :=
  match strlen st.world.mem sub_name with
  | none => none
  | some n =>
    let placeRef := st.stack.length
    let lenRef := st.stack.length + 1
    let st1 : State σ := { st with stack := st.stack ++ [place, int_of_size_t n] }
    some (call_enter_exit_c E sub_name lenRef placeRef st1)

/-- The function `void enter_exit(const char *sub_name, int place)`. -/
def enter_exit {σ : Type} (E : Extern σ) (sub_name : Nat) (place : Int)
    (st : State σ) : Option (State σ) :=
  (enter_exit_body E sub_name place st).map
    fun st2 => { st2 with stack := st2.stack.take st.stack.length }

/-- The body of `set_diagnostics_level` up to its closing brace: the parameter
`level` is the cell appended to the stack. -/
def set_diagnostics_level_body {σ : Type} (E : Extern σ) (level : Int)
    (st : State σ) : State σ :=
  let levelRef := st.stack.length
  let st1 : State σ := { st with stack := st.stack ++ [level] }
  call_set_diagnostics_level_c E levelRef st1

/-- The function `void set_diagnostics_level(int level)`. -/
def set_diagnostics_level {σ : Type} (E : Extern σ) (level : Int)
    (st : State σ) : State σ :=
  let st2 := set_diagnostics_level_body E level st
  { st2 with stack := st2.stack.take st.stack.length }

/-! ## Stand-ins for the external routines -/

/-- What a recording stand-in keeps of one call. -/
inductive Seen where
  | enter_exit (name : List Byte) (sub_name_len : Int) (place : Int)
  | level (level : Int)
  deriving DecidableEq

/-- A stand-in that records what it is handed: for `enter_exit_c` the
`sub_name_len` bytes found at `sub_name`, the length and the code; for
`set_diagnostics_level_c` the level.  It writes nothing back. -/
def recorder : Extern (List Seen) where
  enter_exit_c w sub_name len place :=
    { world := { w with ext := w.ext ++
        [Seen.enter_exit ((w.mem.drop sub_name).take len.toNat) len place] }
      sub_name_len := len
      place := place }
  set_diagnostics_level_c w level :=
    { world := { w with ext := w.ext ++ [Seen.level level] }
      level := level }

/-- A stand-in that overwrites everything it is handed by reference and keeps
the last level it saw as its state. -/
def clobber : Extern Int where
  enter_exit_c w _ _ _ := { world := w, sub_name_len := -7, place := -9 }
  set_diagnostics_level_c w level :=
    { world := { w with ext := level }, level := level + 100 }

/-- The bytes of the C string literal "init", terminator included. -/
def initBytes : List Byte := [105, 110, 105, 116, 0]

/-- A state whose `char` storage holds just `bytes`, with an empty recorder. -/
def freshState (bytes : List Byte) : State (List Seen) :=
  { world := { mem := bytes, ext := [] }, stack := [], calls := [] }

/-- A starting state for the overwriting stand-in. -/
def clobberState (bytes : List Byte) (stack : List Int) : State Int :=
  { world := { mem := bytes, ext := 0 }, stack := stack, calls := [] }

/-- A recorder state with a history: two earlier calls in the trace, two
records kept, and a live caller cell. -/
def usedState (bytes : List Byte) : State (List Seen) :=
  { world := { mem := bytes, ext := [Seen.level 9, Seen.enter_exit [120] 1 0] }
    stack := [11]
    calls := [Call.set_diagnostics_level_c 9, Call.enter_exit_c 0 1 0] }

/-- A stand-in for `enter_exit_c` that rewrites the storage it is pointed at:
it stores a zero byte right after the first byte of the identifier. -/
def cutter : Extern Unit where
  enter_exit_c w sub_name len place :=
    { world := { w with mem := w.mem.set (sub_name + 1) 0 }
      sub_name_len := len
      place := place }
  set_diagnostics_level_c w level := { world := w, level := level }

/-- A starting state for the storage-rewriting stand-in. -/
def cutterState (bytes : List Byte) : State Unit :=
  { world := { mem := bytes, ext := () }, stack := [], calls := [] }

/-- The calls made between the state `st` and the later state `st2`. -/
def newCalls {σ : Type} (st st2 : State σ) : List Call :=
  st2.calls.drop st.calls.length

/-- How many entries of a trace are calls of `enter_exit_c`. -/
def countEnterExit : List Call → Nat
  | [] => 0
  | Call.enter_exit_c _ _ _ :: cs => countEnterExit cs + 1
  | Call.set_diagnostics_level_c _ :: cs => countEnterExit cs

/-- How many entries of a trace are calls of `set_diagnostics_level_c`. -/
def countSetLevel : List Call → Nat
  | [] => 0
  | Call.enter_exit_c _ _ _ :: cs => countSetLevel cs
  | Call.set_diagnostics_level_c _ :: cs => countSetLevel cs + 1

/-! ## Lemmas on the embedding -/

theorem strlenAux_identifier (pre rest : List Byte) (k : Nat) (h : (0 : Byte) ∉ pre) :
    strlenAux (pre ++ 0 :: rest) k = some (k + pre.length) := by
  induction pre generalizing k with
  | nil => simp [strlenAux]
  | cons b bs ih =>
    have hb : b ≠ 0 := fun e => h (by simp [e])
    have hbs : (0 : Byte) ∉ bs := fun e => h (List.mem_cons_of_mem _ e)
    have hk : k + 1 + bs.length = k + (bs.length + 1) := by omega
    have step : strlenAux (b :: (bs ++ 0 :: rest)) k = strlenAux (bs ++ 0 :: rest) (k + 1) := by
      simp [strlenAux, hb]
    rw [List.cons_append, step, ih (k + 1) hbs, hk, List.length_cons]

theorem strlen_identifier (before pre rest : List Byte) (h : (0 : Byte) ∉ pre) :
    strlen (before ++ pre ++ 0 :: rest) before.length = some pre.length := by
  unfold strlen
  rw [List.append_assoc, List.drop_left, strlenAux_identifier pre rest 0 h]
  simp

theorem getD_frame_fst (l : List Int) (a b : Int) :
    (l ++ [a, b]).getD l.length 0 = a := by
  induction l with
  | nil => rfl
  | cons x xs ih => simpa using ih

theorem getD_frame_snd (l : List Int) (a b : Int) :
    (l ++ [a, b]).getD (l.length + 1) 0 = b := by
  induction l with
  | nil => rfl
  | cons x xs ih => simpa using ih

theorem getD_frame_one (l : List Int) (a : Int) :
    (l ++ [a]).getD l.length 0 = a := by
  induction l with
  | nil => rfl
  | cons x xs ih => simp

theorem enter_exit_body_eq {σ : Type} (E : Extern σ) (sub_name n : Nat) (place : Int)
    (st : State σ) (h : strlen st.world.mem sub_name = some n) :
    enter_exit_body E sub_name place st = some
      { world := (E.enter_exit_c st.world sub_name (int_of_size_t n) place).world
        stack := st.stack ++
          [(E.enter_exit_c st.world sub_name (int_of_size_t n) place).place,
           (E.enter_exit_c st.world sub_name (int_of_size_t n) place).sub_name_len]
        calls := st.calls ++ [Call.enter_exit_c sub_name (int_of_size_t n) place] } := by
  simp only [enter_exit_body, h, call_enter_exit_c, getD_frame_fst, getD_frame_snd]
  simp [List.set_append]

theorem enter_exit_eq {σ : Type} (E : Extern σ) (sub_name n : Nat) (place : Int)
    (st : State σ) (h : strlen st.world.mem sub_name = some n) :
    enter_exit E sub_name place st = some
      { world := (E.enter_exit_c st.world sub_name (int_of_size_t n) place).world
        stack := st.stack
        calls := st.calls ++ [Call.enter_exit_c sub_name (int_of_size_t n) place] } := by
  simp [enter_exit, enter_exit_body_eq E sub_name n place st h]

theorem enter_exit_eq_none {σ : Type} (E : Extern σ) (sub_name : Nat) (place : Int)
    (st : State σ) (h : strlen st.world.mem sub_name = none) :
    enter_exit E sub_name place st = none := by
  simp [enter_exit, enter_exit_body, h]

theorem set_diagnostics_level_body_eq {σ : Type} (E : Extern σ) (level : Int)
    (st : State σ) :
    set_diagnostics_level_body E level st =
      { world := (E.set_diagnostics_level_c st.world level).world
        stack := st.stack ++ [(E.set_diagnostics_level_c st.world level).level]
        calls := st.calls ++ [Call.set_diagnostics_level_c level] } := by
  simp only [set_diagnostics_level_body, call_set_diagnostics_level_c, getD_frame_one]
  simp [List.set_append]

theorem set_diagnostics_level_eq {σ : Type} (E : Extern σ) (level : Int) (st : State σ) :
    set_diagnostics_level E level st =
      { world := (E.set_diagnostics_level_c st.world level).world
        stack := st.stack
        calls := st.calls ++ [Call.set_diagnostics_level_c level] } := by
  simp [set_diagnostics_level, set_diagnostics_level_body_eq]

theorem int_of_size_t_small (n : Nat) (h : n < 2 ^ 31) : int_of_size_t n = (n : Int) := by
  unfold int_of_size_t
  split <;> omega

theorem int_of_size_t_range (n : Nat) :
    -(2 ^ 31 : Int) ≤ int_of_size_t n ∧ int_of_size_t n < 2 ^ 31 := by
  unfold int_of_size_t
  have hm : n % 2 ^ 32 < 2 ^ 32 := Nat.mod_lt _ (by norm_num)
  split <;> omega

theorem int_of_size_t_congruent (n : Nat) :
    ((n : Int) - int_of_size_t n) % 2 ^ 32 = 0 := by
  unfold int_of_size_t
  split <;> omega

theorem enter_exit_identifier {σ : Type} (E : Extern σ) (st : State σ)
    (before pre rest : List Byte) (place : Int)
    (hmem : st.world.mem = before ++ pre ++ 0 :: rest) (hnz : (0 : Byte) ∉ pre) :
    enter_exit E before.length place st = some
      { world := (E.enter_exit_c st.world before.length (int_of_size_t pre.length) place).world
        stack := st.stack
        calls := st.calls ++
          [Call.enter_exit_c before.length (int_of_size_t pre.length) place] } := by
  apply enter_exit_eq
  rw [hmem]
  exact strlen_identifier before pre rest hnz

theorem not_mem_replicate_one (n : Nat) : (0 : Byte) ∉ List.replicate n (1 : Byte) :=
  fun h => absurd (List.eq_of_mem_replicate h) (by decide)

theorem recorder_calls_replicate (n : Nat) (place : Int) :
    (enter_exit recorder 0 place (freshState (List.replicate n 1 ++ [0]))).map (·.calls)
      = some [Call.enter_exit_c 0 (int_of_size_t n) place] := by
  have h := enter_exit_identifier recorder (freshState (List.replicate n 1 ++ [0])) []
    (List.replicate n 1) [] place (by simp [freshState]) (not_mem_replicate_one n)
  simp only [List.length_nil, List.length_replicate] at h
  rw [h]
  simp [freshState]

theorem recorder_run_replicate (n : Nat) (place : Int) :
    (enter_exit recorder 0 place (freshState (List.replicate n 1 ++ [0]))).map
        (fun s => (s.calls, s.world.ext))
      = some ([Call.enter_exit_c 0 (int_of_size_t n) place],
          [Seen.enter_exit
            (List.take (int_of_size_t n).toNat (List.replicate n (1 : Byte) ++ [0]))
            (int_of_size_t n) place]) := by
  have h := enter_exit_identifier recorder (freshState (List.replicate n 1 ++ [0])) []
    (List.replicate n 1) [] place (by simp [freshState]) (not_mem_replicate_one n)
  simp only [List.length_nil, List.length_replicate] at h
  rw [h]
  simp [freshState, recorder]

/-! ## The claims -/

/-- C1 (as amended): for every non-empty identifier of fewer than `2 ^ 31`
bytes, `enter_exit` forwards to `enter_exit_c` a length equal to the number of
bytes before the first terminator, and the bytes after the first terminator do
not influence what is forwarded. -/
theorem enter_exit_forwards_byte_count {σ : Type} (E : Extern σ) (st : State σ)
    (before pre rest : List Byte) (place : Int)
    (hmem : st.world.mem = before ++ pre ++ 0 :: rest)
    (hne : pre ≠ []) (hnz : (0 : Byte) ∉ pre) (hlt : pre.length < 2 ^ 31) :
    (enter_exit E before.length place st).map (·.calls)
        = some (st.calls ++ [Call.enter_exit_c before.length (pre.length : Int) place]) ∧
      0 < pre.length ∧
      ∀ (st2 : State σ) (rest2 : List Byte),
        st2.world.mem = before ++ pre ++ 0 :: rest2 →
        (enter_exit E before.length place st2).map (newCalls st2)
          = (enter_exit E before.length place st).map (newCalls st) := by
  refine ⟨?_, List.length_pos.mpr hne, ?_⟩
  · rw [enter_exit_identifier E st before pre rest place hmem hnz,
      int_of_size_t_small _ hlt]
    rfl
  · intro st2 rest2 hmem2
    rw [enter_exit_identifier E st before pre rest place hmem hnz,
      enter_exit_identifier E st2 before pre rest2 place hmem2 hnz]
    simp [newCalls]

/-- C1, witness: the identifier "init" in a buffer with bytes before it and
after its terminator. -/
theorem enter_exit_forwards_byte_count_witness :
    (enter_exit recorder 2 1 (freshState ([7, 0] ++ [105, 110, 105, 116] ++ 0 :: [9, 9]))).map
        (·.calls) = some [Call.enter_exit_c 2 4 1] :=
  (enter_exit_forwards_byte_count recorder
    (freshState ([7, 0] ++ [105, 110, 105, 116] ++ 0 :: [9, 9]))
    [7, 0] [105, 110, 105, 116] [9, 9] 1 rfl (by decide) (by decide) (by decide)).1

/-- C1, as stated, fails: an identifier of `2 ^ 31` non-zero bytes is
non-empty, yet the length forwarded for it is `-2147483648`, not its byte
count. -/
theorem enter_exit_forwards_byte_count_counterexample :
    List.replicate 2147483648 (1 : Byte) ≠ [] ∧
    (0 : Byte) ∉ List.replicate 2147483648 (1 : Byte) ∧
    (enter_exit recorder 0 1 (freshState (List.replicate 2147483648 1 ++ [0]))).map (·.calls)
      = some [Call.enter_exit_c 0 (-2147483648) 1] ∧
    ((List.replicate 2147483648 (1 : Byte)).length : Int) ≠ -2147483648 := by
  refine ⟨?_, not_mem_replicate_one _, ?_, ?_⟩
  · intro h
    have hl := congrArg List.length h
    rw [List.length_replicate] at hl
    exact absurd hl (by decide)
  · rw [recorder_calls_replicate 2147483648 1]
    have hv : int_of_size_t 2147483648 = -2147483648 := by decide
    rw [hv]
  · rw [List.length_replicate]
    decide

/-- C2: for the empty identifier (the byte at `sub_name` is the terminator) and
every `place`, `enter_exit` returns, having called `enter_exit_c` exactly once
with the same pointer, the length 0 and the same `place`. -/
theorem enter_exit_empty_identifier {σ : Type} (E : Extern σ) (st : State σ)
    (before rest : List Byte) (place : Int)
    (hmem : st.world.mem = before ++ 0 :: rest) :
    enter_exit E before.length place st = some
      { world := (E.enter_exit_c st.world before.length 0 place).world
        stack := st.stack
        calls := st.calls ++ [Call.enter_exit_c before.length 0 place] } := by
  have h := enter_exit_identifier E st before [] rest place (by simpa using hmem) (by simp)
  rw [h]
  rfl

/-- C2, witness: the empty string literal, code `-5`, seen by the recorder. -/
theorem enter_exit_empty_identifier_witness :
    (enter_exit recorder 0 (-5) (freshState [0])).map (fun s => (s.calls, s.world.ext))
      = some ([Call.enter_exit_c 0 0 (-5)], [Seen.enter_exit [] 0 (-5)]) := by
  have h := enter_exit_empty_identifier recorder (freshState [0]) [] [] (-5) rfl
  simp only [List.length_nil] at h
  rw [h]
  decide

/-- C3: the value handed to `enter_exit_c` behind its `place` reference is the
`place` given to `enter_exit`, and the value handed to
`set_diagnostics_level_c` behind its `level` reference is the `level` given to
`set_diagnostics_level`, for every value; `set_diagnostics_level(3)` makes the
recorder see 3. -/
theorem values_pass_unmodified {σ : Type} (E : Extern σ) (st : State σ)
    (before pre rest : List Byte) (place level : Int)
    (hmem : st.world.mem = before ++ pre ++ 0 :: rest) (hnz : (0 : Byte) ∉ pre) :
    (enter_exit E before.length place st).map (fun s => (newCalls st s, s.world))
        = some ([Call.enter_exit_c before.length (int_of_size_t pre.length) place],
            (E.enter_exit_c st.world before.length (int_of_size_t pre.length) place).world) ∧
      newCalls st (set_diagnostics_level E level st) = [Call.set_diagnostics_level_c level] ∧
      (set_diagnostics_level E level st).world
        = (E.set_diagnostics_level_c st.world level).world ∧
      (set_diagnostics_level recorder 3 (freshState [])).world.ext = [Seen.level 3] := by
  refine ⟨?_, ?_, ?_, by decide⟩
  · rw [enter_exit_identifier E st before pre rest place hmem hnz]
    simp [newCalls]
  · rw [set_diagnostics_level_eq]
    simp [newCalls]
  · rw [set_diagnostics_level_eq]

/-- C3, witness: the smallest `int` as `place`, the largest as `level`. -/
theorem values_pass_unmodified_witness :
    (enter_exit recorder 0 (-2147483648) (freshState initBytes)).map (·.world.ext)
        = some [Seen.enter_exit [105, 110, 105, 116] 4 (-2147483648)] ∧
      (set_diagnostics_level recorder 2147483647 (freshState initBytes)).world.ext
        = [Seen.level 2147483647] := by
  have h := values_pass_unmodified recorder (freshState initBytes) [] [105, 110, 105, 116] []
    (-2147483648) 2147483647 rfl (by decide)
  refine ⟨?_, ?_⟩
  · have h1 := congrArg (Option.map (fun q : List Call × World (List Seen) => q.2.ext)) h.1
    simp only [Option.map_map, Option.map_some'] at h1
    exact h1.trans (by decide)
  · rw [h.2.2.1]
    decide

/-- C4 (as amended): for every valid identifier of fewer than `2 ^ 31` bytes
and every `place`, `enter_exit` returns and its whole effect is the one call
`enter_exit_c(sub_name, &sub_name_len, &place)` on the caller's storage, with
the caller's pointer, the byte count of the identifier as length and `place`;
`enter_exit("init", 1)` makes the recorder see "init", 4 and 1. -/
theorem enter_exit_exact_call {σ : Type} (E : Extern σ) (st : State σ)
    (before pre rest : List Byte) (place : Int)
    (hmem : st.world.mem = before ++ pre ++ 0 :: rest) (hnz : (0 : Byte) ∉ pre)
    (hlt : pre.length < 2 ^ 31) :
    enter_exit E before.length place st = some
        { world := (E.enter_exit_c st.world before.length (pre.length : Int) place).world
          stack := st.stack
          calls := st.calls ++ [Call.enter_exit_c before.length (pre.length : Int) place] } ∧
      (enter_exit recorder 0 1 (freshState initBytes)).map (fun s => (s.calls, s.world.ext))
        = some ([Call.enter_exit_c 0 4 1], [Seen.enter_exit [105, 110, 105, 116] 4 1]) := by
  refine ⟨?_, by decide⟩
  rw [enter_exit_identifier E st before pre rest place hmem hnz, int_of_size_t_small _ hlt]

/-- C4, witness: the identifier "ab" stored at offset 3, code 42. -/
theorem enter_exit_exact_call_witness :
    (enter_exit recorder 3 42 (freshState ([1, 2, 3] ++ [97, 98] ++ 0 :: [5]))).map
        (fun s => (s.calls, s.world.ext, s.world.mem))
      = some ([Call.enter_exit_c 3 2 42], [Seen.enter_exit [97, 98] 2 42],
          [1, 2, 3, 97, 98, 0, 5]) := by
  have h := (enter_exit_exact_call recorder (freshState ([1, 2, 3] ++ [97, 98] ++ 0 :: [5]))
    [1, 2, 3] [97, 98] [5] 42 rfl (by decide) (by decide)).1
  rw [show ([1, 2, 3] : List Byte).length = 3 from rfl] at h
  rw [h]
  decide

/-- C4, as stated, fails: for the valid identifier of `2 ^ 31 + 1` non-zero
bytes the one call made is `enter_exit_c` with length `-2147483647`, and the
recorder, reading that many bytes at the pointer, sees none of the identifier;
the call is not the one with the byte count of the identifier as length. -/
theorem enter_exit_exact_call_counterexample :
    (0 : Byte) ∉ List.replicate 2147483649 (1 : Byte) ∧
    (enter_exit recorder 0 7 (freshState (List.replicate 2147483649 1 ++ [0]))).map
        (fun s => (s.calls, s.world.ext))
      = some ([Call.enter_exit_c 0 (-2147483647) 7], [Seen.enter_exit [] (-2147483647) 7]) ∧
    Call.enter_exit_c 0 (-2147483647) 7
      ≠ Call.enter_exit_c 0 ((List.replicate 2147483649 (1 : Byte)).length : Int) 7 := by
  refine ⟨not_mem_replicate_one _, ?_, ?_⟩
  · rw [recorder_run_replicate 2147483649 7]
    have hv : int_of_size_t 2147483649 = -2147483647 := by decide
    have hz : Int.toNat (-2147483647) = 0 := by decide
    rw [hv, hz, List.take_zero]
  · rw [List.length_replicate]
    decide

/-- C5: when the external level-setting routine is idempotent for identical
inputs, calling `set_diagnostics_level v` twice in a row leaves the same
external state as calling it once, for every `v` and every starting state. -/
theorem set_diagnostics_level_idempotent {σ : Type} (E : Extern σ)
    (hid : ∀ (w : World σ) (v : Int),
      (E.set_diagnostics_level_c (E.set_diagnostics_level_c w v).world v).world
        = (E.set_diagnostics_level_c w v).world)
    (v : Int) (st : State σ) :
    (set_diagnostics_level E v (set_diagnostics_level E v st)).world
      = (set_diagnostics_level E v st).world := by
  simp only [set_diagnostics_level_eq]
  exact hid st.world v

/-- C5, witness: the overwriting stand-in keeps the level it was handed and
writes another value back through the reference; level 3 twice is level 3
once. -/
theorem set_diagnostics_level_idempotent_witness :
    (set_diagnostics_level clobber 3 (set_diagnostics_level clobber 3 (clobberState [] []))).world
      = (set_diagnostics_level clobber 3 (clobberState [] [])).world :=
  set_diagnostics_level_idempotent clobber (fun _ _ => rfl) 3 (clobberState [] [])

/-- C6: the adapter validates nothing and reports nothing of its own.  For
every `level`, negative, zero or large, `set_diagnostics_level` does nothing but
apply `set_diagnostics_level_c` to that value; for every valid identifier and
every `place`, `enter_exit` returns and does nothing but apply `enter_exit_c`
to the pointer, the computed length and that `place`; and the only way
`enter_exit` fails to return is `strlen` running off the storage, which no
value of `place` affects. -/
theorem no_validation_no_error_channel {σ : Type} (E : Extern σ) (st : State σ) :
    (∀ level : Int,
        set_diagnostics_level E level st =
          { world := (E.set_diagnostics_level_c st.world level).world
            stack := st.stack
            calls := st.calls ++ [Call.set_diagnostics_level_c level] }) ∧
      (∀ (before pre rest : List Byte) (place : Int),
        st.world.mem = before ++ pre ++ 0 :: rest → (0 : Byte) ∉ pre →
        enter_exit E before.length place st = some
          { world :=
              (E.enter_exit_c st.world before.length (int_of_size_t pre.length) place).world
            stack := st.stack
            calls := st.calls ++
              [Call.enter_exit_c before.length (int_of_size_t pre.length) place] }) ∧
      (∀ (sub_name : Nat) (place : Int),
        enter_exit E sub_name place st = none ↔ strlen st.world.mem sub_name = none) := by
  refine ⟨?_, ?_, ?_⟩
  · intro level
    exact set_diagnostics_level_eq E level st
  · intro before pre rest place hmem hnz
    exact enter_exit_identifier E st before pre rest place hmem hnz
  · intro sub_name place
    cases hs : strlen st.world.mem sub_name with
    | none => simp [enter_exit_eq_none E sub_name place st hs]
    | some n => simp [enter_exit_eq E sub_name n place st hs]

/-- C6, witness: a negative code, and a negative, a zero and the largest level,
all reach the recorder as they are. -/
theorem no_validation_no_error_channel_witness :
    (enter_exit recorder 0 (-1) (freshState initBytes)).map (fun s => (s.calls, s.world.ext))
        = some ([Call.enter_exit_c 0 4 (-1)], [Seen.enter_exit [105, 110, 105, 116] 4 (-1)]) ∧
      (set_diagnostics_level recorder (-3) (freshState initBytes)).world.ext
        = [Seen.level (-3)] ∧
      (set_diagnostics_level recorder 0 (freshState initBytes)).world.ext = [Seen.level 0] ∧
      (set_diagnostics_level recorder 2147483647 (freshState initBytes)).world.ext
        = [Seen.level 2147483647] := by
  have h := no_validation_no_error_channel recorder (freshState initBytes)
  have he := h.2.1 [] [105, 110, 105, 116] [] (-1) rfl (by decide)
  rw [show ([] : List Byte).length = 0 from rfl] at he
  refine ⟨?_, ?_, ?_, ?_⟩
  · rw [he]
    decide
  · rw [h.1 (-3)]
    decide
  · rw [h.1 0]
    decide
  · rw [h.1 2147483647]
    decide

/-- C7 (as amended): each operation is a stateless one-shot forward.  One
`enter_exit` on a valid identifier returns, having applied `enter_exit_c` once
to the storage it found and nothing else: the trace gains exactly one call of
`enter_exit_c` and none of `set_diagnostics_level_c`.  One
`set_diagnostics_level` applies `set_diagnostics_level_c` once and nothing
else: the trace gains exactly one call of it and none of `enter_exit_c`.  What
is forwarded depends only on the pointer, the identifier bytes found at it and
the code (or on the level): two invocations that agree on these forward the
same arguments, whatever the two states, their histories and the external
routines are. -/
theorem one_shot_stateless_forward {σ τ : Type} (E1 : Extern σ) (E2 : Extern τ)
    (st1 : State σ) (st2 : State τ) (place level : Int) :
    (∀ before pre rest : List Byte,
        st1.world.mem = before ++ pre ++ 0 :: rest → (0 : Byte) ∉ pre →
        enter_exit E1 before.length place st1 = some
          { world :=
              (E1.enter_exit_c st1.world before.length (int_of_size_t pre.length) place).world
            stack := st1.stack
            calls := st1.calls ++
              [Call.enter_exit_c before.length (int_of_size_t pre.length) place] } ∧
        (enter_exit E1 before.length place st1).map
          (fun s => (countEnterExit (newCalls st1 s), countSetLevel (newCalls st1 s)))
            = some (1, 0)) ∧
      set_diagnostics_level E1 level st1 =
        { world := (E1.set_diagnostics_level_c st1.world level).world
          stack := st1.stack
          calls := st1.calls ++ [Call.set_diagnostics_level_c level] } ∧
      (countSetLevel (newCalls st1 (set_diagnostics_level E1 level st1)),
        countEnterExit (newCalls st1 (set_diagnostics_level E1 level st1))) = (1, 0) ∧
      (∀ before1 before2 pre rest1 rest2 : List Byte,
        st1.world.mem = before1 ++ pre ++ 0 :: rest1 →
        st2.world.mem = before2 ++ pre ++ 0 :: rest2 →
        before1.length = before2.length → (0 : Byte) ∉ pre →
        (enter_exit E1 before1.length place st1).map (newCalls st1)
          = (enter_exit E2 before2.length place st2).map (newCalls st2)) ∧
      newCalls st1 (set_diagnostics_level E1 level st1)
        = newCalls st2 (set_diagnostics_level E2 level st2) := by
  refine ⟨?_, set_diagnostics_level_eq E1 level st1, ?_, ?_, ?_⟩
  · intro before pre rest hmem hnz
    refine ⟨enter_exit_identifier E1 st1 before pre rest place hmem hnz, ?_⟩
    rw [enter_exit_identifier E1 st1 before pre rest place hmem hnz]
    simp [newCalls, countEnterExit, countSetLevel]
  · rw [set_diagnostics_level_eq]
    simp [newCalls, countEnterExit, countSetLevel]
  · intro before1 before2 pre rest1 rest2 hmem1 hmem2 hptr hnz
    rw [enter_exit_identifier E1 st1 before1 pre rest1 place hmem1 hnz,
      enter_exit_identifier E2 st2 before2 pre rest2 place hmem2 hnz, hptr]
    simp [newCalls]
  · rw [set_diagnostics_level_eq, set_diagnostics_level_eq]
    simp [newCalls]

/-- C7, witness: "init" at offset 1 in a recorder state with a history and in
a state of the overwriting stand-in, with different bytes around it; the
recorder gains one record, for one call. -/
theorem one_shot_stateless_forward_witness :
    (enter_exit recorder 1 5 (usedState ([3] ++ [105, 110, 105, 116] ++ 0 :: []))).map
        (newCalls (usedState ([3] ++ [105, 110, 105, 116] ++ 0 :: [])))
      = (enter_exit clobber 1 5 (clobberState ([0] ++ [105, 110, 105, 116] ++ 0 :: [8]) [])).map
        (newCalls (clobberState ([0] ++ [105, 110, 105, 116] ++ 0 :: [8]) [])) ∧
    (enter_exit recorder 1 5 (usedState ([3] ++ [105, 110, 105, 116] ++ 0 :: []))).map
        (fun s => (s.world.ext, s.calls))
      = some ([Seen.level 9, Seen.enter_exit [120] 1 0, Seen.enter_exit [105, 110, 105, 116] 4 5],
          [Call.set_diagnostics_level_c 9, Call.enter_exit_c 0 1 0, Call.enter_exit_c 1 4 5]) := by
  have h := one_shot_stateless_forward recorder clobber
    (usedState ([3] ++ [105, 110, 105, 116] ++ 0 :: []))
    (clobberState ([0] ++ [105, 110, 105, 116] ++ 0 :: [8]) []) 5 2
  refine ⟨h.2.2.2.1 [3] [0] [105, 110, 105, 116] [] [8] rfl rfl rfl (by decide), ?_⟩
  have he := (h.1 [3] [105, 110, 105, 116] [] rfl (by decide)).1
  rw [show ([3] : List Byte).length = 1 from rfl] at he
  rw [he]
  decide

/-- C7, as stated, fails: two invocations of `enter_exit` with the same
pointer and the same code forward different lengths when the bytes at the
pointer differ, be it in two states or after an earlier call whose external
routine rewrote the storage. -/
theorem one_shot_stateless_forward_counterexample :
    (enter_exit recorder 0 1 (freshState [105, 110, 105, 116, 0])).map
        (newCalls (freshState [105, 110, 105, 116, 0])) = some [Call.enter_exit_c 0 4 1] ∧
    (enter_exit recorder 0 1 (freshState [105, 0, 105, 116, 0])).map
        (newCalls (freshState [105, 0, 105, 116, 0])) = some [Call.enter_exit_c 0 1 1] ∧
    (enter_exit cutter 0 1 (cutterState initBytes)).bind
        (fun s => (enter_exit cutter 0 1 s).map
          (fun s2 => (newCalls (cutterState initBytes) s, newCalls s s2)))
      = some ([Call.enter_exit_c 0 4 1], [Call.enter_exit_c 0 1 1]) := by
  decide

/-- C8: by-value semantics at the call site.  The references handed to the
external routines are the adapter's own cells, so whatever the routines write
through them lands there (the stack at the closing brace is the caller's stack
followed by the values the routine left) and every cell of the caller is
unchanged once `enter_exit` and `set_diagnostics_level` have returned.  The
adapter writes no byte: the routine is handed the caller's storage as it was
and the storage it leaves is the storage after the call. -/
theorem by_value_at_call_site {σ : Type} (E : Extern σ) (st : State σ)
    (before pre rest : List Byte) (place level : Int)
    (hmem : st.world.mem = before ++ pre ++ 0 :: rest) (hnz : (0 : Byte) ∉ pre) :
    (enter_exit E before.length place st).map (·.stack) = some st.stack ∧
      (set_diagnostics_level E level st).stack = st.stack ∧
      (enter_exit_body E before.length place st).map (·.stack) = some (st.stack ++
        [(E.enter_exit_c st.world before.length (int_of_size_t pre.length) place).place,
         (E.enter_exit_c st.world before.length (int_of_size_t pre.length) place).sub_name_len]) ∧
      (set_diagnostics_level_body E level st).stack
        = st.stack ++ [(E.set_diagnostics_level_c st.world level).level] ∧
      (enter_exit E before.length place st).map (·.world)
        = some (E.enter_exit_c st.world before.length (int_of_size_t pre.length) place).world ∧
      (set_diagnostics_level E level st).world
        = (E.set_diagnostics_level_c st.world level).world := by
  have hs : strlen st.world.mem before.length = some pre.length := by
    rw [hmem]
    exact strlen_identifier before pre rest hnz
  refine ⟨?_, ?_, ?_, ?_, ?_, ?_⟩
  · rw [enter_exit_eq E _ _ place st hs]
    rfl
  · rw [set_diagnostics_level_eq]
  · rw [enter_exit_body_eq E _ _ place st hs]
    rfl
  · rw [set_diagnostics_level_body_eq]
  · rw [enter_exit_eq E _ _ place st hs]
    rfl
  · rw [set_diagnostics_level_eq]

/-- C8, witness: the caller holds 5 and 3 in two cells and passes them to an
external routine that overwrites what it is handed; the overwriting hits the
adapter's cells only, and the bytes of "init" stay. -/
theorem by_value_at_call_site_witness :
    (enter_exit clobber 0 5 (clobberState initBytes [5, 3])).map
        (fun s => (s.stack, s.world.mem)) = some ([5, 3], initBytes) ∧
      (set_diagnostics_level clobber 3 (clobberState initBytes [5, 3])).stack = [5, 3] ∧
      (enter_exit_body clobber 0 5 (clobberState initBytes [5, 3])).map (·.stack)
        = some [5, 3, -9, -7] ∧
      (set_diagnostics_level_body clobber 3 (clobberState initBytes [5, 3])).stack
        = [5, 3, 103] := by
  have h := by_value_at_call_site clobber (clobberState initBytes [5, 3]) []
    [105, 110, 105, 116] [] 5 3 rfl (by decide)
  exact ⟨by decide, h.2.1, h.2.2.1, h.2.2.2.1⟩

/-- C9: the length forwarded for an identifier of `n` bytes is `n` narrowed to
a 32-bit signed `int`: it lies in `[-2 ^ 31, 2 ^ 31)` and is congruent to `n`
modulo `2 ^ 32`.  For `n < 2 ^ 31` it equals `n` and is non-negative; for
`n ≥ 2 ^ 31` it differs from `n`, and it is negative whenever
`n % 2 ^ 32 ≥ 2 ^ 31`, as for the identifier of `3 * 2 ^ 30` bytes, whose
forwarded length is `-2 ^ 30`. -/
theorem enter_exit_length_narrowing {σ : Type} (E : Extern σ) (st : State σ)
    (before pre rest : List Byte) (place : Int)
    (hmem : st.world.mem = before ++ pre ++ 0 :: rest) (hnz : (0 : Byte) ∉ pre) :
    (enter_exit E before.length place st).map (newCalls st)
        = some [Call.enter_exit_c before.length (int_of_size_t pre.length) place] ∧
      -(2 ^ 31 : Int) ≤ int_of_size_t pre.length ∧ int_of_size_t pre.length < 2 ^ 31 ∧
      ((pre.length : Int) - int_of_size_t pre.length) % 2 ^ 32 = 0 ∧
      (pre.length < 2 ^ 31 →
        int_of_size_t pre.length = (pre.length : Int) ∧ 0 ≤ int_of_size_t pre.length) ∧
      (2 ^ 31 ≤ pre.length → int_of_size_t pre.length ≠ (pre.length : Int)) ∧
      (2 ^ 31 ≤ pre.length % 2 ^ 32 → int_of_size_t pre.length < 0) ∧
      (enter_exit recorder 0 place (freshState (List.replicate 3221225472 1 ++ [0]))).map
        (·.calls) = some [Call.enter_exit_c 0 (-1073741824) place] := by
  have hr := int_of_size_t_range pre.length
  refine ⟨?_, hr.1, hr.2, int_of_size_t_congruent _, ?_, ?_, ?_, ?_⟩
  · rw [enter_exit_identifier E st before pre rest place hmem hnz]
    simp [newCalls]
  · intro hlt
    rw [int_of_size_t_small _ hlt]
    exact ⟨rfl, Int.natCast_nonneg _⟩
  · intro hge heq
    have h2 := hr.2
    rw [heq] at h2
    omega
  · intro hge
    unfold int_of_size_t
    have hm : pre.length % 2 ^ 32 < 2 ^ 32 := Nat.mod_lt _ (by norm_num)
    split <;> omega
  · rw [recorder_calls_replicate 3221225472 place]
    have hv : int_of_size_t 3221225472 = -1073741824 := by decide
    rw [hv]

/-- C9, witness: "init" has 4 bytes, which is what is forwarded. -/
theorem enter_exit_length_narrowing_witness :
    (enter_exit recorder 0 1 (freshState initBytes)).map (newCalls (freshState initBytes))
      = some [Call.enter_exit_c 0 4 1] :=
  (enter_exit_length_narrowing recorder (freshState initBytes) [] [105, 110, 105, 116] [] 1
    rfl (by decide)).1

end Diagnostics
